import Mathlib

/-!
Verification development for the `create-regolith-addon` scaffolding tool
(`src/bin.ts`).  The development shallowly embeds the `initProject` function
and the two inquirer `validate` callbacks as executable Lean definitions:

* strings are manipulated through their character lists, because the
  JavaScript string primitives used by the source (`replace`, `split`,
  regular-expression tests, `Number` coercion) are modelled character by
  character;
* filesystem paths are lists of path components (each `path.join` in the
  source appends one component);
* JSON documents produced via object literals and `JSON.stringify` are
  modelled by an explicit JSON value tree `Js` (property order preserved,
  `undefined`-valued properties omitted, exactly as `JSON.stringify` does);
* `uuid.v4()` is modelled by a fresh-identifier counter threaded through
  the run, so that distinctness of generated identifiers is the statement
  that the counter is bumped at every generation site;
* the `writeFileSync`/`mkdirSync` side effects and the log calls are
  modelled by a `Trace` of performed filesystem operations and logged
  operations, with the `--dry` option suppressing only the former;
* the single `throw` in `initProject` is modelled with `Except`.
-/

/-- ScriptingLanguage mirrors the `"js" | "ts" | "none"` union of the
`scriptingLanguage` prompt answer. -/
inductive ScriptingLanguage where
  | js
  | ts
  | none
deriving DecidableEq, BEq, Repr

/-- PromptResponses mirrors the `PromptResponses` interface of `bin.ts`.
The two fields marked optional in TypeScript (they are only prompted for
when scripting is enabled, and are `undefined` otherwise) are modelled with
`Option Bool`. -/
structure PromptResponses where
  projectName : String
  includeRp : Bool
  targetVersion : String
  scriptingLanguage : ScriptingLanguage
  includeLocalFilters : Option Bool
  includeEslint : Option Bool
  includePrettier : Bool
deriving DecidableEq, Repr

/-- Options mirrors the `Options` interface (`dry?: true`); the JavaScript
truthiness test `options.dry` makes `undefined` equivalent to `false`, so a
plain `Bool` is used. -/
structure Options where
  dry : Bool
deriving DecidableEq, Repr

/-- truthy models the JavaScript truthiness of an optional boolean:
`undefined` is falsy, otherwise the boolean itself is used. -/
def truthy (o : Option Bool) : Bool :=
  o.getD false

/-- illegalSeq is the sequence of characters appearing in the `replace`
regular expression `/\/\\:\*\?"<>\|\./g` of `bin.ts` line 31.  The regular
expression has no character-class brackets, so it matches exactly this
ten-character sequence. -/
def illegalSeq : List Char :=
  ['/', '\\', ':', '*', '?', '"', '<', '>', '|', '.']

/-- sanitizeCharsAux replaces every (non-overlapping, leftmost-first)
occurrence of `illegalSeq` by a single `'-'`, exactly as
`String.prototype.replace` with a global regular expression does.  The
`Nat` argument is recursion fuel; one unit is consumed per character, so
fuel equal to the list length always suffices. -/
def sanitizeCharsAux : Nat → List Char → List Char
  | _, [] => []
  | 0, l => l
  | fuel + 1, c :: rest =>
    if illegalSeq.isPrefixOf (c :: rest) then
      '-' :: sanitizeCharsAux fuel (rest.drop (illegalSeq.length - 1))
    else
      c :: sanitizeCharsAux fuel rest

/-- sanitizeName models `promptResponses.projectName.replace(/\/\\:\*\?"<>\|\./g, "-")`
(`bin.ts` lines 30-33), the computation of `basePath`. -/
def sanitizeName (s : String) : String :=
  String.mk (sanitizeCharsAux s.data.length s.data)

/-- hasInfixChars decides whether `needle` occurs as a contiguous
subsequence of the second list (an unanchored regular-expression group
match). -/
def hasInfixChars (needle : List Char) : List Char → Bool
  | [] => needle.isPrefixOf []
  | c :: t => needle.isPrefixOf (c :: t) || hasInfixChars needle t

/-- comDigits is the digit range of the `[1-9]` character classes in the
reserved-name regular expression. -/
def comDigits : List Char :=
  ['1', '2', '3', '4', '5', '6', '7', '8', '9']

/-- reservedNameTest models `/^(CON)|(PRN)|(AUX)|(NUL)|(COM[1-9])|(LPT[1-9])$/g.test(basePath)`
(`bin.ts` line 36).  Because `|` binds loosest in a regular expression, the
`^` anchor applies only to the `(CON)` alternative and the `$` anchor only
to the `(LPT[1-9])` alternative; the four middle alternatives match
anywhere in the string, and the whole test is case-sensitive. -/
def reservedNameTest (s : String) : Bool :=
  let cs := s.data
  "CON".data.isPrefixOf cs
    || hasInfixChars "PRN".data cs
    || hasInfixChars "AUX".data cs
    || hasInfixChars "NUL".data cs
    || comDigits.any (fun d => hasInfixChars ("COM".data ++ [d]) cs)
    || comDigits.any (fun d => ("LPT".data ++ [d]).isSuffixOf cs)

/-- validateProjectName models the `validate` callback of the
`projectName` prompt (`bin.ts` lines 484-495): a `some` result carries the
error message, `none` means the input is accepted.  `input.endsWith(" ")`
and `input.endsWith(".")` are single-character suffix tests, modelled via
the last character. -/
def validateProjectName (input : String) : Option String :=
  if input.data.length < 1 then
    some "Must be at least one character"
  else if input.data.getLast? == some ' ' || input.data.getLast? == some '.' then
    some "Cannot end with space or '.'"
  else
    none

/-- splitOnCharAux splits a character list at every occurrence of the
separator, keeping empty segments, exactly as
`String.prototype.split` with a one-character string separator does
(`"".split(".")` is `[""]`, `"1.".split(".")` is `["1",""]`). -/
def splitOnCharAux (sep : Char) (cur : List Char) : List Char → List (List Char)
  | [] => [cur.reverse]
  | c :: rest =>
    if c = sep then
      cur.reverse :: splitOnCharAux sep [] rest
    else
      splitOnCharAux sep (c :: cur) rest

/-- splitOnChar models `s.split(sep)` for a one-character separator. -/
def splitOnChar (sep : Char) (s : String) : List String :=
  (splitOnCharAux sep [] s.data).map String.mk

/-- JsNumber models a JavaScript number as far as the source observes it:
`NaN`, signed infinity, or an exact value `m * 10 ^ e` (the source never
observes floating-point rounding, so exact values suffice). -/
inductive JsNumber where
  | nan
  | inf (neg : Bool)
  | val (m : Int) (e : Int)
deriving DecidableEq, Repr

/-- jsWhitespaceChars lists the whitespace characters stripped by the
ECMAScript `StringToNumber` conversion (ASCII whitespace, no-break space
and the byte-order mark; further exotic Unicode space characters are not
reachable from the claims and are omitted). -/
def jsWhitespaceChars : List Char :=
  [' ', '\t', '\n', '\r', '\x0b', '\x0c', ' ', '﻿']

/-- trimJsChars strips leading and trailing JavaScript whitespace. -/
def trimJsChars (cs : List Char) : List Char :=
  ((cs.dropWhile (jsWhitespaceChars.contains ·)).reverse.dropWhile
    (jsWhitespaceChars.contains ·)).reverse

/-- decDigitsVal reads a digit list as a natural number. -/
def decDigitsVal (cs : List Char) : Nat :=
  cs.foldl (fun a c => a * 10 + (c.toNat - '0'.toNat)) 0

/-- hexDigitVal reads one hexadecimal digit. -/
def hexDigitVal (c : Char) : Nat :=
  if c.isDigit then c.toNat - '0'.toNat
  else if 'a' ≤ c ∧ c ≤ 'f' then c.toNat - 'a'.toNat + 10
  else c.toNat - 'A'.toNat + 10

/-- isHexDigitChar decides membership in `[0-9a-fA-F]`. -/
def isHexDigitChar (c : Char) : Bool :=
  c.isDigit || ('a' ≤ c && c ≤ 'f') || ('A' ≤ c && c ≤ 'F')

/-- radixDigitsVal reads a digit list in the given radix with the given
per-digit valuation. -/
def radixDigitsVal (radix : Nat) (digitVal : Char → Nat) (cs : List Char) : Nat :=
  cs.foldl (fun a c => a * radix + digitVal c) 0

/-- parseExpSuffix parses an optional ECMAScript exponent part
(`e`/`E`, optional sign, at least one digit) that must consume the whole
remaining input; it returns the exponent value. -/
def parseExpSuffix : List Char → Option Int
  | [] => some 0
  | e :: rest =>
    if e = 'e' ∨ e = 'E' then
      let (sgn, digits) :=
        match rest with
        | '+' :: r => ((1 : Int), r)
        | '-' :: r => ((-1 : Int), r)
        | r => ((1 : Int), r)
      if digits ≠ [] ∧ digits.all Char.isDigit then
        some (sgn * Int.ofNat (decDigitsVal digits))
      else
        Option.none
    else
      Option.none

/-- parseUnsignedDec parses an unsigned ECMAScript decimal literal
(`digits`, `digits.digits?`, `.digits`, each with an optional exponent),
requiring the whole input to be consumed; it returns mantissa and
base-ten exponent. -/
def parseUnsignedDec (cs : List Char) : Option (Int × Int) :=
  let (intPart, rest) := cs.span Char.isDigit
  match rest with
  | '.' :: rest2 =>
    let (fracPart, rest3) := rest2.span Char.isDigit
    if intPart = [] ∧ fracPart = [] then
      Option.none
    else
      (parseExpSuffix rest3).map (fun ex =>
        (Int.ofNat (decDigitsVal (intPart ++ fracPart)),
         ex - Int.ofNat fracPart.length))
  | _ =>
    if intPart = [] then
      Option.none
    else
      (parseExpSuffix rest).map (fun ex => (Int.ofNat (decDigitsVal intPart), ex))

/-- parseSignedDec parses an ECMAScript `StrDecimalLiteral`: optional
sign, then `Infinity` or an unsigned decimal literal. -/
def parseSignedDec (cs : List Char) : JsNumber :=
  let (sgn, body) :=
    match cs with
    | '+' :: r => ((1 : Int), r)
    | '-' :: r => ((-1 : Int), r)
    | r => ((1 : Int), r)
  if body = "Infinity".data then
    JsNumber.inf (sgn = -1)
  else
    match parseUnsignedDec body with
    | some (m, e) => JsNumber.val (sgn * m) e
    | Option.none => JsNumber.nan

/-- jsNumberOfString models the ECMAScript `Number(string)` coercion
(`StringToNumber`): trim whitespace, the empty string is `0`, a
`0x`/`0o`/`0b` literal (no sign) is read in its radix, and otherwise the
input must be a signed decimal literal or `Infinity`, else `NaN`. -/
def jsNumberOfString (s : String) : JsNumber :=
  let cs := trimJsChars s.data
  match cs with
  | [] => JsNumber.val 0 0
  | '0' :: x :: rest =>
    if (x = 'x' ∨ x = 'X') ∧ rest ≠ [] ∧ rest.all isHexDigitChar then
      JsNumber.val (Int.ofNat (radixDigitsVal 16 hexDigitVal rest)) 0
    else if (x = 'o' ∨ x = 'O') ∧ rest ≠ [] ∧ rest.all (fun c => '0' ≤ c && c ≤ '7') then
      JsNumber.val (Int.ofNat (radixDigitsVal 8 (fun c => c.toNat - '0'.toNat) rest)) 0
    else if (x = 'b' ∨ x = 'B') ∧ rest ≠ [] ∧ rest.all (fun c => c = '0' ∨ c = '1') then
      JsNumber.val (Int.ofNat (radixDigitsVal 2 (fun c => c.toNat - '0'.toNat) rest)) 0
    else
      parseSignedDec cs
  | _ => parseSignedDec cs

/-- validateTargetVersion models the `validate` callback of the
`targetVersion` prompt (`bin.ts` lines 506-517): split on `'.'`, then fail
unless there are exactly 3 or 4 components, none of which is empty
(JavaScript `!v`) or coerces to `NaN` (`isNaN(Number(v))`). -/
def validateTargetVersion (input : String) : Option String :=
  let s := splitOnChar '.' input
  if (s.length ≠ 3 ∧ s.length ≠ 4)
      ∨ s.any (fun v => v.data.isEmpty || (jsNumberOfString v == JsNumber.nan)) then
    some "Must be in `x.y.z` or `x.y.z.t` format where `x`, `y`, `z`, and `t` are integers"
  else
    none


/-- Js models the JSON value trees that `bin.ts` builds with object
literals and serializes with `JSON.stringify`: property order is the
insertion order of the literal, properties whose value is `undefined` are
omitted (as `JSON.stringify` omits them), and identifiers produced by
`uuid.v4()` are a dedicated constructor carrying the index of the
generation site (see the module docstring). -/
inductive Js where
  | null
  | bool (b : Bool)
  | num (n : JsNumber)
  | str (s : String)
  | uuid (id : Nat)
  | arr (elems : List Js)
  | obj (fields : List (String × Js))

/-- jsInt embeds an integer literal of the source as a JSON number. -/
def jsInt (n : Int) : Js :=
  Js.num (JsNumber.val n 0)

/-- ver100 is the `[1, 0, 0]` version array used by every manifest header,
module and dependency entry. -/
def ver100 : Js :=
  Js.arr [jsInt 1, jsInt 0, jsInt 0]

/-- FileData is the content of one written file: plain text, a
`JSON.stringify`ed document, or the `.eslintrc.cjs` file which prepends
`module.exports = ` to a stringified document. -/
inductive FileData where
  | text (s : String)
  | json (j : Js)
  | jsModuleExports (j : Js)

/-- Op is one filesystem operation of the plan: `mkdirSync` or
`writeFileSync`.  Paths are lists of components, one component per
`path.join` argument, rooted at the working directory. -/
inductive Op where
  | makeDir (path : List String)
  | writeFile (path : List String) (data : FileData)

/-- Op.path projects the path of an operation. -/
def Op.path : Op → List String
  | .makeDir p => p
  | .writeFile p _ => p

/-- Trace records a run of `initProject`: `log` is the sequence of
operations announced through `log.writingFile`/`log.makingDir` (always
recorded), `fs` the sequence actually performed through
`fs.writeFileSync`/`fs.mkdirSync` (suppressed by `--dry`). -/
structure Trace where
  log : List Op
  fs : List Op

/-- writeFile models the inner `writeFile` helper of `initProject`
(`bin.ts` lines 42-47): always log, write only when not dry. -/
def writeFile (opts : Options) (t : Trace) (path : List String) (data : FileData) : Trace :=
  { log := t.log ++ [Op.writeFile path data]
    fs := if opts.dry then t.fs else t.fs ++ [Op.writeFile path data] }

/-- makeDir models the inner `makeDir` helper of `initProject`
(`bin.ts` lines 49-54). -/
def makeDir (opts : Options) (t : Trace) (path : List String) : Trace :=
  { log := t.log ++ [Op.makeDir path]
    fs := if opts.dry then t.fs else t.fs ++ [Op.makeDir path] }

/-- indexScriptNameOf is `useTs ? "index.ts" : "index.js"` (`bin.ts`
line 60). -/
def indexScriptNameOf (useTs : Bool) : String :=
  if useTs then "index.ts" else "index.js"

/-- isTargetingPreviewOf is `targetVersionStrSplit.length > 3` (`bin.ts`
line 63). -/
def isTargetingPreviewOf (targetVersion : String) : Bool :=
  decide ((splitOnChar '.' targetVersion).length > 3)

/-- minEngineVersionOf models `bin.ts` lines 62-68: split the target
version on `.`, drop the last component when it has four, and coerce each
component with `Number`. -/
def minEngineVersionOf (targetVersion : String) : List JsNumber :=
  let targetVersionStrSplit := splitOnChar '.' targetVersion
  (if isTargetingPreviewOf targetVersion then
    targetVersionStrSplit.dropLast
   else
    targetVersionStrSplit).map jsNumberOfString

/-- buildScriptsCommand is the esbuild shell command of the
`build_scripts` filter definition (`bin.ts` line 92), a template literal
over the entry-point file name. -/
def buildScriptsCommand (indexScriptName : String) : String :=
  "npx esbuild BP/scripts/" ++ indexScriptName
    ++ " --outfile=BP/scripts/__bundle.js --bundle --format=esm --external:@minecraft/common --external:@minecraft/debug-utilities --external:@minecraft/server --external:@minecraft/server-*"

/-- prodFinishUpCommand is the shell command of the
`prod_finish_up_build_scripts` filter definition (`bin.ts` line 97). -/
def prodFinishUpCommand : String :=
  "npx terser BP/scripts/__bundle.js --module -cmo BP/scripts/__bundle.js; Remove-Item BP/scripts/* -Recurse -Exclude __bundle.js"

/-- exampleFilterDefJson is the `example_filter` filter definition
(`bin.ts` lines 99-111), present only when local filters are requested. -/
def exampleFilterDefJson (useTs : Bool) : Js :=
  if useTs then
    Js.obj [("runWith", Js.str "shell"),
            ("command", Js.str "npm run tsx filters/example_filter")]
  else
    Js.obj [("runWith", Js.str "nodejs"),
            ("script", Js.str "filters/example_filter/index.js")]

/-- filterDefinitionsJson is the `filterDefinitions` object of
`config.json` (`bin.ts` lines 88-113). -/
def filterDefinitionsJson (useScripting useTs localFilters : Bool) : List (String × Js) :=
  if useScripting then
    [("build_scripts", Js.obj
       [("runWith", Js.str "shell"),
        ("command", Js.str (buildScriptsCommand (indexScriptNameOf useTs)))]),
     ("prod_finish_up_build_scripts", Js.obj
       [("runWith", Js.str "shell"),
        ("command", Js.str prodFinishUpCommand)])]
      ++ (if localFilters then [("example_filter", exampleFilterDefJson useTs)] else [])
  else
    []

/-- configJson is the `config.json` document (`bin.ts` lines 74-150). -/
def configJson (basePath : String) (includeRp useScripting useTs localFilters isPreview : Bool) :
    Js :=
  Js.obj
    [("$schema", Js.str "https://raw.githubusercontent.com/Bedrock-OSS/regolith-schemas/main/config/v1.2.json"),
     ("author", Js.str "Your name"),
     ("name", Js.str basePath),
     ("packs", Js.obj
       ([("behaviorPack", Js.str "./packs/BP")]
         ++ (if includeRp then [("resourcePack", Js.str "./packs/RP")] else []))),
     ("regolith", Js.obj
       [("dataPath", Js.str "./packs/data"),
        ("filterDefinitions", Js.obj (filterDefinitionsJson useScripting useTs localFilters)),
        ("profiles", Js.obj
          [("default", Js.obj
             [("export", Js.obj
                [("target", Js.str (if isPreview then "preview" else "development"))]),
              ("filters", Js.arr
                (if useScripting then [Js.obj [("filter", Js.str "build_scripts")]] else []))]),
           ("prod", Js.obj
             [("export", Js.obj [("target", Js.str "local")]),
              ("filters", Js.arr
                ([Js.obj [("profile", Js.str "default")]]
                  ++ (if useScripting then
                       [Js.obj [("filter", Js.str "prod_finish_up_build_scripts")]]
                      else [])))])])])]

/-- packageDevDependencies models the mutation steps on the
`packageDevDependencies` record (`bin.ts` lines 152-195); insertion order
is the program order of the assignments. -/
def packageDevDependencies (useScripting useTs eslint localFilters prettier : Bool) :
    List (String × String) :=
  (if useScripting then [("esbuild", "^0.20.2"), ("terser", "^5.30.3")] else [])
    ++ (if eslint then
         [("eslint", "^8.57.0")]
           ++ (if useTs then
                [("@typescript-eslint/eslint-plugin", "^7.3.1"),
                 ("@typescript-eslint/parser", "^7.3.1")]
               else [])
        else [])
    ++ (if prettier then [("prettier", "^3.2.5")] else [])
    ++ (if useTs && localFilters then [("tsx", "^4.7.2")] else [])

/-- checkCommands is the `commands` array of the `check` script
(`bin.ts` lines 172-183): `eslint .` when lint is enabled, then `tsc` when
typed, then `tsc -p filters` when typed with local filters. -/
def checkCommands (useTs eslint localFilters : Bool) : List String :=
  (if eslint then ["eslint ."] else [])
    ++ (if useTs then ["tsc"] ++ (if localFilters then ["tsc -p filters"] else []) else [])

/-- packageScripts models the mutation steps on the `packageScripts`
record (`bin.ts` lines 152-195): `fmt` when a formatter is requested, then
(when typed or linted) `check` joined with `" && "` and, with a formatter,
`fmt-check`, then the `tsx` helper script for typed local filters. -/
def packageScripts (useTs eslint localFilters prettier : Bool) : List (String × String) :=
  (if prettier then [("fmt", "prettier . -w")] else [])
    ++ (if useTs || eslint then
         [("check", String.intercalate " && " (checkCommands useTs eslint localFilters))]
           ++ (if prettier then [("fmt-check", "npm run fmt && npm run check")] else [])
        else [])
    ++ (if useTs && localFilters then [("tsx", "tsx")] else [])

/-- packageJson is the `package.json` document (`bin.ts` lines 197-210). -/
def packageJson (useScripting useTs eslint localFilters prettier : Bool) : Js :=
  Js.obj
    [("private", Js.bool true),
     ("type", Js.str "module"),
     ("scripts", Js.obj
       ((packageScripts useTs eslint localFilters prettier).map (fun kv => (kv.1, Js.str kv.2)))),
     ("devDependencies", Js.obj
       ((packageDevDependencies useScripting useTs eslint localFilters prettier).map
         (fun kv => (kv.1, Js.str kv.2))))]

/-- eslintrcJson is the document assigned to `module.exports` in
`.eslintrc.cjs` (`bin.ts` lines 212-266); the `project` parser option is
`undefined` (hence omitted by `JSON.stringify`) unless typed scripting is
chosen. -/
def eslintrcJson (useTs localFilters : Bool) : Js :=
  Js.obj
    [("env", Js.obj [("browser", Js.bool true), ("es2021", Js.bool true)]),
     ("extends", Js.arr [Js.str "eslint:recommended"]),
     ("parserOptions", Js.obj
       ([("ecmaVersion", Js.str "latest"), ("sourceType", Js.str "module")]
         ++ (if useTs then
              [("project", Js.arr
                 ([Js.str "./tsconfig.json"]
                   ++ (if localFilters then [Js.str "./filters/tsconfig.json"] else [])))]
             else []))),
     ("overrides", Js.arr
       ([Js.obj
          [("files", Js.arr [Js.str "*.cjs"]),
           ("env", Js.obj [("node", Js.bool true)]),
           ("parserOptions", Js.obj [("sourceType", Js.str "script")])]]
         ++ (if useTs then
              [Js.obj
                [("files", Js.arr [Js.str "*.ts"]),
                 ("extends", Js.arr
                   [Js.str "plugin:@typescript-eslint/strict-type-checked",
                    Js.str "plugin:@typescript-eslint/stylistic-type-checked"]),
                 ("parser", Js.str "@typescript-eslint/parser"),
                 ("plugins", Js.arr [Js.str "@typescript-eslint"]),
                 ("rules", Js.obj [])]]
             else [])))]

/-- tsconfigJson is the root `tsconfig.json` document (`bin.ts`
lines 273-297). -/
def tsconfigJson : Js :=
  Js.obj
    [("include", Js.arr [Js.str "./packs/BP/scripts"]),
     ("compilerOptions", Js.obj
       [("paths", Js.obj [("@/*", Js.arr [Js.str "./packs/*"])]),
        ("forceConsistentCasingInFileNames", Js.bool true),
        ("strict", Js.bool true),
        ("target", Js.str "es2022"),
        ("module", Js.str "es2022"),
        ("moduleResolution", Js.str "bundler"),
        ("noEmit", Js.bool true),
        ("skipLibCheck", Js.bool true)])]

/-- scriptModuleJson is the `script` module entry of the behavior-pack
manifest (`bin.ts` lines 323-333). -/
def scriptModuleJson (scriptUuid : Nat) : Js :=
  Js.obj
    [("type", Js.str "script"),
     ("language", Js.str "javascript"),
     ("uuid", Js.uuid scriptUuid),
     ("entry", Js.str "scripts/__bundle.js"),
     ("version", ver100)]

/-- bpManifestJson is the behavior-pack `manifest.json` (`bin.ts`
lines 308-343). -/
def bpManifestJson (minEngine : List JsNumber) (includeRp : Bool)
    (bpUuid rpUuid dataUuid : Nat) (scriptModules : List Js) : Js :=
  Js.obj
    [("format_version", jsInt 2),
     ("header", Js.obj
       [("name", Js.str "pack.name"),
        ("description", Js.str "pack.description"),
        ("min_engine_version", Js.arr (minEngine.map Js.num)),
        ("uuid", Js.uuid bpUuid),
        ("version", ver100)]),
     ("modules", Js.arr
       ([Js.obj [("type", Js.str "data"), ("uuid", Js.uuid dataUuid), ("version", ver100)]]
         ++ scriptModules)),
     ("dependencies", Js.arr
       (if includeRp then [Js.obj [("uuid", Js.uuid rpUuid), ("version", ver100)]] else []))]

/-- rpManifestJson is the resource-pack `manifest.json` (`bin.ts`
lines 377-399). -/
def rpManifestJson (minEngine : List JsNumber) (bpUuid rpUuid resourcesUuid : Nat) : Js :=
  Js.obj
    [("format_version", jsInt 2),
     ("header", Js.obj
       [("name", Js.str "pack.name"),
        ("description", Js.str "pack.description"),
        ("min_engine_version", Js.arr (minEngine.map Js.num)),
        ("uuid", Js.uuid rpUuid),
        ("version", ver100)]),
     ("modules", Js.arr
       [Js.obj [("type", Js.str "resources"), ("uuid", Js.uuid resourcesUuid),
                ("version", ver100)]]),
     ("dependencies", Js.arr
       [Js.obj [("uuid", Js.uuid bpUuid), ("version", ver100)]])]

/-- filtersPackageJson is the minimal `filters/package.json`
(`bin.ts` lines 417-428). -/
def filtersPackageJson : Js :=
  Js.obj [("private", Js.bool true), ("type", Js.str "module")]

/-- filtersTsconfigJson is `filters/tsconfig.json` (`bin.ts`
lines 431-442). -/
def filtersTsconfigJson : Js :=
  Js.obj [("extends", Js.str "../tsconfig.json"), ("include", Js.arr [Js.str "."])]

/-- enUsLangContentOf is the two-line `en_US.lang` content (`bin.ts`
line 359), written from the raw (unsanitized) project name. -/
def enUsLangContentOf (projectName : String) : String :=
  "pack.name=" ++ projectName ++ "\npack.description=" ++ projectName

/-- tsExampleFilterStub is the example-filter entry-point content for
typed scripting (`bin.ts` line 458). -/
def tsExampleFilterStub : String :=
  "// NOTE: this script will **not** run relative to the `.regolith/tmp` directory.\n// Use the `TMP_DIR` constant from `filters/common.ts` to access it instead.\n\nconsole.log(\"Hello, World!\");"

/-- initProjectOps is the sequence of filesystem operations `initProject`
performs (in source order, `bin.ts` lines 56-461), as a function of the
answers and the already-computed `basePath`.  Unconditional stretches of
the source are literal list segments; each `if` block of the source is a
conditional segment.  The `uuid.v4()` call sites are numbered in their
evaluation order (`bpUuid` is call 0, `rpUuid` call 1, the `data` module
call 2, then the `script` module when scripting is enabled, and last the
`resources` module inside the resource-pack branch), so each generated
identifier is the index of its generation site. -/
def initProjectOps (p : PromptResponses) (basePath : String) : List Op :=
  let useScripting : Bool := p.scriptingLanguage != ScriptingLanguage.none
  let useTs : Bool := p.scriptingLanguage == ScriptingLanguage.ts
  let localFilters : Bool := truthy p.includeLocalFilters
  let eslint : Bool := truthy p.includeEslint
  let indexScriptName : String := indexScriptNameOf useTs
  let isPreview : Bool := isTargetingPreviewOf p.targetVersion
  let minEngineVersion : List JsNumber := minEngineVersionOf p.targetVersion
  let enUsLangContent : String := enUsLangContentOf p.projectName
  let languagesJsonContent : String := "[\"en_US\"]"
  let bpUuid : Nat := 0
  let rpUuid : Nat := 1
  let dataUuid : Nat := 2
  let scriptModules : List Js := if useScripting then [scriptModuleJson 3] else []
  let resourcesUuid : Nat := if useScripting then 4 else 3
  [Op.makeDir [basePath],
   Op.writeFile [basePath, ".gitignore"] (FileData.text "/build\n/.regolith\nnode_modules"),
   Op.writeFile [basePath, "config.json"]
     (FileData.json (configJson basePath p.includeRp useScripting useTs localFilters isPreview)),
   Op.writeFile [basePath, "package.json"]
     (FileData.json (packageJson useScripting useTs eslint localFilters p.includePrettier))]
  ++ (if eslint then
       [Op.writeFile [basePath, ".eslintrc.cjs"]
         (FileData.jsModuleExports (eslintrcJson useTs localFilters))]
      else [])
  ++ (if p.includePrettier then
       [Op.writeFile [basePath, ".prettierrc"] (FileData.text "\x7b\x7d")]
      else [])
  ++ (if useTs then
       [Op.writeFile [basePath, "tsconfig.json"] (FileData.json tsconfigJson)]
      else [])
  ++ [Op.makeDir [basePath, "packs"],
      Op.makeDir [basePath, "packs", "BP"],
      Op.writeFile [basePath, "packs", "BP", "manifest.json"]
        (FileData.json (bpManifestJson minEngineVersion p.includeRp bpUuid rpUuid dataUuid
          scriptModules))]
  ++ (if useScripting then
       [Op.makeDir [basePath, "packs", "BP", "scripts"],
        Op.writeFile [basePath, "packs", "BP", "scripts", indexScriptName]
          (FileData.text "console.log(\"Hello, Minecraft!\");")]
      else [])
  ++ [Op.makeDir [basePath, "packs", "BP", "texts"],
      Op.writeFile [basePath, "packs", "BP", "texts", "en_US.lang"]
        (FileData.text enUsLangContent),
      Op.writeFile [basePath, "packs", "BP", "texts", "languages.json"]
        (FileData.text languagesJsonContent),
      Op.makeDir [basePath, "packs", "data"]]
  ++ (if p.includeRp then
       [Op.makeDir [basePath, "packs", "RP"],
        Op.writeFile [basePath, "packs", "RP", "manifest.json"]
          (FileData.json (rpManifestJson minEngineVersion bpUuid rpUuid resourcesUuid)),
        Op.makeDir [basePath, "packs", "RP", "texts"],
        Op.writeFile [basePath, "packs", "RP", "texts", "en_US.lang"]
          (FileData.text enUsLangContent),
        Op.writeFile [basePath, "packs", "RP", "texts", "languages.json"]
          (FileData.text languagesJsonContent)]
       ++ (if localFilters then
            [Op.makeDir [basePath, "filters"],
             Op.writeFile [basePath, "filters", "package.json"]
               (FileData.json filtersPackageJson)]
            ++ (if useTs then
                 [Op.writeFile [basePath, "filters", "tsconfig.json"]
                    (FileData.json filtersTsconfigJson),
                  Op.writeFile [basePath, "filters", "common.ts"]
                    (FileData.text "export const TMP_DIR = \".regolith/tmp\";")]
                else [])
            ++ [Op.makeDir [basePath, "filters", "example_filter"],
                Op.writeFile [basePath, "filters", "example_filter", indexScriptName]
                  (FileData.text (if useTs then tsExampleFilterStub
                    else "console.log(\"Hello, World!\");"))]
           else [])
      else [])

/-- runOp performs one decided operation through the logging/writing
helpers. -/
def runOp (opts : Options) (t : Trace) : Op → Trace
  | .makeDir path => makeDir opts t path
  | .writeFile path data => writeFile opts t path data

/-- initProjectBody is the straight-line part of `initProject` after the
reserved-name check (`bin.ts` lines 42-470), with `basePath` already
computed: every operation of `initProjectOps` is performed in order
through the `writeFile`/`makeDir` helpers, starting from the empty
trace. -/
def initProjectBody (p : PromptResponses) (opts : Options) (basePath : String) : Trace :=
  (initProjectOps p basePath).foldl (runOp opts) { log := [], fs := [] }

/-- initProject models `initProject` of `bin.ts` (lines 27-471): sanitize
the project name into `basePath`, throw on a reserved-name match, then run
the straight-line body. -/
def initProject (p : PromptResponses) (opts : Options) : Except String Trace :=
  let basePath := sanitizeName p.projectName
  if reservedNameTest basePath then
    Except.error ("\"" ++ basePath
      ++ "\" is an illegal file name. Try giving your add-on another name")
  else
    Except.ok (initProjectBody p opts basePath)

/-- plan is the operation sequence `initProject` decides on (and logs) for
given answers: the logged trace of a non-dry run. -/
def plan (p : PromptResponses) : List Op :=
  (initProjectBody p { dry := false } (sanitizeName p.projectName)).log

/-- exceptIsOk reports whether an `initProject` run succeeded. -/
def exceptIsOk (e : Except String Trace) : Bool :=
  match e with
  | .ok _ => true
  | .error _ => false

/-- exceptErrorMsg extracts the thrown message of a failed run. -/
def exceptErrorMsg (e : Except String Trace) : Option String :=
  match e with
  | .ok _ => Option.none
  | .error msg => some msg
def Js.field (k : String) : Js → Option Js
  | .obj fields => fields.lookup k
  | _ => Option.none

/-- Js.atPath chains property lookups. -/
def Js.atPath (j : Js) (ks : List String) : Option Js :=
  ks.foldl (fun acc k => acc.bind (Js.field k)) (some j)

/-- Js.objKeys lists an object's property names in order. -/
def Js.objKeys : Js → Option (List String)
  | .obj fields => some (fields.map Prod.fst)
  | _ => Option.none

/-- Js.strVal extracts a string value. -/
def Js.strVal : Js → Option String
  | .str s => some s
  | _ => Option.none

/-- Js.uuidNat extracts a generated-identifier value. -/
def Js.uuidNat : Js → Option Nat
  | .uuid n => some n
  | _ => Option.none

/-- jsonAtTail finds the first JSON document written at a path whose
components below the base directory equal `rel`. -/
def jsonAtTail (ops : List Op) (rel : List String) : Option Js :=
  ops.findSome? (fun op =>
    match op with
    | .writeFile q (.json j) => if q.tail == rel then some j else Option.none
    | _ => Option.none)

/-- manifestJsons lists, in order, the JSON documents the plan writes to a
file named `manifest.json`. -/
def manifestJsons (ops : List Op) : List Js :=
  ops.filterMap (fun op =>
    match op with
    | .writeFile q (.json j) =>
      if q.getLast? == some "manifest.json" then some j else Option.none
    | _ => Option.none)

/-- manifestHeaderUuidNat extracts a manifest's own (header) identifier. -/
def manifestHeaderUuidNat (j : Js) : Option Nat :=
  (j.atPath ["header", "uuid"]).bind Js.uuidNat

/-- manifestDepUuidNats extracts the identifiers referenced by a
manifest's dependency list. -/
def manifestDepUuidNats (j : Js) : List Nat :=
  match j.field "dependencies" with
  | some (.arr l) => l.filterMap (fun d => (d.field "uuid").bind Js.uuidNat)
  | _ => []

/-- manifestModuleUuidNats extracts the identifiers carried by a
manifest's module entries. -/
def manifestModuleUuidNats (j : Js) : List Nat :=
  match j.field "modules" with
  | some (.arr l) => l.filterMap (fun m => (m.field "uuid").bind Js.uuidNat)
  | _ => []

/-- manifestOwnUuidNats collects the header identifier and the module
identifiers of one manifest. -/
def manifestOwnUuidNats (j : Js) : List Nat :=
  (manifestHeaderUuidNat j).toList ++ manifestModuleUuidNats j

/-- scriptsCheckOf extracts the `check` entry of the package manifest's
`scripts` map from a plan. -/
def scriptsCheckOf (ops : List Op) : Option String :=
  ((jsonAtTail ops ["package.json"]).bind (fun j => j.atPath ["scripts", "check"])).bind Js.strVal

/-- devDependencyNamesOf extracts the dev-dependency names of the package
manifest from a plan. -/
def devDependencyNamesOf (ops : List Op) : List String :=
  (((jsonAtTail ops ["package.json"]).bind (Js.field "devDependencies")).bind Js.objKeys).getD []

/-- pathUnder decides whether the second path lies strictly under the
first (the first is a proper component-prefix of the second). -/
def pathUnder (d q : List String) : Bool :=
  d.isPrefixOf q && decide (d.length < q.length)

/-- dirsOf lists the directory paths a plan creates. -/
def dirsOf (ops : List Op) : List (List String) :=
  ops.filterMap (fun op =>
    match op with
    | .makeDir q => some q
    | _ => Option.none)

/-- pbcAux scans the operation list in order, carrying the directories
already created; it checks that whenever an operation's path lies strictly
under any directory of the plan, that directory was created at an earlier
position. -/
def pbcAux (allDirs : List (List String)) (made : List (List String)) : List Op → Bool
  | [] => true
  | op :: rest =>
    allDirs.all (fun d => !pathUnder d op.path || made.contains d)
      && pbcAux allDirs
          (match op with
           | .makeDir q => q :: made
           | .writeFile _ _ => made)
          rest

/-- parentBeforeChildB is the parent-before-child ordering check over a
whole plan. -/
def parentBeforeChildB (ops : List Op) : Bool :=
  pbcAux (dirsOf ops) [] ops

/-- stripOp drops the base-directory component from an operation's path
and erases file contents (which the ordering check never inspects). -/
def stripOp : Op → Op
  | .makeDir q => .makeDir q.tail
  | .writeFile q _ => .writeFile q.tail (.text "")

/-- reheadOp rebuilds an operation's path from a fixed head and the
path's tail; a plan is fixed by mapping `reheadOp b` exactly when all its
paths start with `b`. -/
def reheadOp (b : String) : Op → Op
  | .makeDir q => .makeDir (b :: q.tail)
  | .writeFile q data => .writeFile (b :: q.tail) data

/-- HeadedBy states that a path begins with the given component. -/
def HeadedBy (b : String) (q : List String) : Prop :=
  ∃ t, q = b :: t

theorem foldl_runOp_log (opts : Options) (cmds : List Op) (t : Trace) :
    (cmds.foldl (runOp opts) t).log = t.log ++ cmds := by
  induction cmds generalizing t with
  | nil => simp
  | cons c rest ih => cases c <;> simp [runOp, writeFile, makeDir, ih]

theorem foldl_runOp_fs (opts : Options) (cmds : List Op) (t : Trace) :
    (cmds.foldl (runOp opts) t).fs = if opts.dry then t.fs else t.fs ++ cmds := by
  induction cmds generalizing t with
  | nil => cases h : opts.dry <;> simp
  | cons c rest ih =>
    cases h : opts.dry <;> cases c <;> simp [runOp, writeFile, makeDir, ih, h]

theorem initProjectBody_log (p : PromptResponses) (opts : Options) (b : String) :
    (initProjectBody p opts b).log = initProjectOps p b := by
  simp [initProjectBody, foldl_runOp_log]

theorem initProjectBody_fs (p : PromptResponses) (opts : Options) (b : String) :
    (initProjectBody p opts b).fs = if opts.dry then [] else initProjectOps p b := by
  simp [initProjectBody, foldl_runOp_fs]

theorem plan_eq_ops (p : PromptResponses) :
    plan p = initProjectOps p (sanitizeName p.projectName) := by
  simp [plan, initProjectBody_log]

theorem map_eq_self_mem {α : Type} {f : α → α} {l : List α} (h : l.map f = l) :
    ∀ x ∈ l, f x = x := by
  induction l with
  | nil => intro x hx; cases hx
  | cons a t ih =>
    simp only [List.map_cons, List.cons.injEq] at h
    intro x hx
    rcases List.mem_cons.mp hx with rfl | hx
    · exact h.1
    · exact ih h.2 x hx

theorem stripOp_path (op : Op) : (stripOp op).path = op.path.tail := by
  cases op <;> rfl

theorem pathUnder_cons (b : String) (d q : List String) :
    pathUnder (b :: d) (b :: q) = pathUnder d q := by
  simp [pathUnder, List.isPrefixOf, Nat.add_lt_add_iff_right]

theorem contains_map_tail (b : String) (made : List (List String))
    (hm : ∀ q ∈ made, HeadedBy b q) (t : List String) :
    (made.map List.tail).contains t = made.contains (b :: t) := by
  induction made with
  | nil => rfl
  | cons q rest ih =>
    obtain ⟨tq, rfl⟩ := hm q (List.mem_cons_self _ _)
    simp only [List.map_cons, List.tail_cons, List.contains_cons]
    rw [ih (fun x hx => hm x (List.mem_cons_of_mem _ hx))]
    by_cases h : t = tq
    · subst h; simp
    · have h2 : b :: t ≠ b :: tq := by simp [h]
      simp [h, h2]

theorem all_check_strip (b : String) (allDirs : List (List String))
    (hd : ∀ d ∈ allDirs, HeadedBy b d) (made : List (List String))
    (hm : ∀ q ∈ made, HeadedBy b q) (tp : List String) :
    (allDirs.map List.tail).all
        (fun d => !pathUnder d tp || (made.map List.tail).contains d)
      = allDirs.all (fun d => !pathUnder d (b :: tp) || made.contains d) := by
  induction allDirs with
  | nil => rfl
  | cons d ds ih =>
    obtain ⟨td, rfl⟩ := hd d (List.mem_cons_self _ _)
    simp only [List.map_cons, List.all_cons, List.tail_cons]
    rw [ih (fun x hx => hd x (List.mem_cons_of_mem _ hx))]
    rw [pathUnder_cons, contains_map_tail b made hm td]

theorem pbcAux_strip (b : String) (allDirs : List (List String))
    (hd : ∀ d ∈ allDirs, HeadedBy b d) :
    ∀ (ops : List Op) (made : List (List String)),
      (∀ q ∈ made, HeadedBy b q) → (∀ op ∈ ops, HeadedBy b op.path) →
      pbcAux (allDirs.map List.tail) (made.map List.tail) (ops.map stripOp)
        = pbcAux allDirs made ops := by
  intro ops
  induction ops with
  | nil => intro made _ _; rfl
  | cons op rest ih =>
    intro made hm ho
    have hr : ∀ o ∈ rest, HeadedBy b o.path :=
      fun o h => ho o (List.mem_cons_of_mem _ h)
    cases op with
    | makeDir q =>
      obtain ⟨tq, rfl⟩ := ho (Op.makeDir q) (List.mem_cons_self _ _)
      simp only [List.map_cons, stripOp, pbcAux, List.tail_cons, Op.path]
      rw [all_check_strip b allDirs hd made hm tq]
      have hm' : ∀ x ∈ (b :: tq) :: made, HeadedBy b x := by
        intro x hx
        rcases List.mem_cons.mp hx with rfl | hx
        · exact ⟨tq, rfl⟩
        · exact hm x hx
      have := ih ((b :: tq) :: made) hm' hr
      simp only [List.map_cons, List.tail_cons] at this
      rw [this]
    | writeFile q data =>
      obtain ⟨tq, rfl⟩ := ho (Op.writeFile q data) (List.mem_cons_self _ _)
      simp only [List.map_cons, stripOp, pbcAux, List.tail_cons, Op.path]
      rw [all_check_strip b allDirs hd made hm tq]
      rw [ih made hm hr]

theorem dirsOf_map_stripOp (ops : List Op) :
    dirsOf (ops.map stripOp) = (dirsOf ops).map List.tail := by
  induction ops with
  | nil => rfl
  | cons op rest ih =>
    cases op with
    | makeDir q =>
      simp only [List.map_cons, dirsOf, List.filterMap_cons, stripOp]
      exact congrArg _ ih
    | writeFile q data =>
      simp only [List.map_cons, dirsOf, List.filterMap_cons, stripOp]
      exact ih

theorem parentBeforeChildB_strip (b : String) (ops : List Op)
    (h : ops.map (reheadOp b) = ops) :
    parentBeforeChildB (ops.map stripOp) = parentBeforeChildB ops := by
  have ho : ∀ op ∈ ops, HeadedBy b op.path := by
    intro op hop
    have hfix := map_eq_self_mem h op hop
    cases op with
    | makeDir q =>
      simp only [reheadOp, Op.makeDir.injEq] at hfix
      exact ⟨q.tail, hfix.symm⟩
    | writeFile q d =>
      simp only [reheadOp, Op.writeFile.injEq] at hfix
      exact ⟨q.tail, hfix.1.symm⟩
  have hdirs : ∀ d ∈ dirsOf ops, HeadedBy b d := by
    intro d hdm
    simp only [dirsOf, List.mem_filterMap] at hdm
    obtain ⟨op, hop, heq⟩ := hdm
    cases op with
    | makeDir q =>
      simp only [Option.some.injEq] at heq
      subst heq
      exact ho _ hop
    | writeFile q data => simp at heq
  unfold parentBeforeChildB
  rw [dirsOf_map_stripOp]
  exact pbcAux_strip b (dirsOf ops) hdirs ops [] (by intro q hq; cases hq) ho

theorem initProjectOps_rehead (p : PromptResponses) (b : String) :
    (initProjectOps p b).map (reheadOp b) = initProjectOps p b := by
  simp only [initProjectOps]
  simp [List.map_append, apply_ite (List.map (reheadOp b)), reheadOp, List.tail_cons]

/-- parentCheckAux scans the operation list carrying the directories
created so far, checking that each operation's path is the root itself or
sits directly inside an already-created directory. -/
def parentCheckAux (made : List (List String)) : List Op → Bool
  | [] => true
  | op :: rest =>
    (op.path.isEmpty || made.contains op.path.dropLast)
      && parentCheckAux
          (match op with
           | .makeDir q => q :: made
           | .writeFile _ _ => made)
          rest

/-- parentCheckB checks that every operation's immediate parent directory
is created before it. -/
def parentCheckB (ops : List Op) : Bool :=
  parentCheckAux [] ops

theorem pathUnder_dropLast {d q : List String} (h : pathUnder d q = true) :
    d = q.dropLast ∨ pathUnder d q.dropLast = true := by
  simp only [pathUnder, Bool.and_eq_true, decide_eq_true_eq] at h
  obtain ⟨hpre, hlen⟩ := h
  rw [List.isPrefixOf_iff_prefix] at hpre
  have hle : d.length ≤ q.length - 1 := by omega
  have hpre' : d <+: q.dropLast := by
    have htake := List.prefix_iff_eq_take.mp hpre
    rw [List.prefix_iff_eq_take, List.dropLast_eq_take, List.take_take]
    rwa [Nat.min_eq_left hle]
  rcases Nat.lt_or_ge d.length q.dropLast.length with hlt | hge
  · right
    simp only [pathUnder, Bool.and_eq_true, decide_eq_true_eq]
    exact ⟨List.isPrefixOf_iff_prefix.mpr hpre', hlt⟩
  · left
    exact hpre'.eq_of_length (Nat.le_antisymm (hpre'.length_le) hge)

theorem ancestor_in_made (allDirs made : List (List String))
    (inv : ∀ d ∈ allDirs, ∀ x ∈ made, pathUnder d x = true → d ∈ made)
    (q : List String) (hq : (q.isEmpty || made.contains q.dropLast) = true) :
    ∀ d ∈ allDirs, pathUnder d q = true → d ∈ made := by
  intro d hd hdq
  have hqne : q.isEmpty = false := by
    cases q with
    | nil => simp [pathUnder] at hdq
    | cons a t => rfl
  rw [hqne, Bool.false_or, List.elem_iff] at hq
  rcases pathUnder_dropLast hdq with rfl | hunder
  · exact hq
  · exact inv d hd q.dropLast hq hunder

theorem pbcAux_of_parentCheckAux (allDirs : List (List String)) :
    ∀ (ops : List Op) (made : List (List String)),
      (∀ d ∈ allDirs, ∀ x ∈ made, pathUnder d x = true → d ∈ made) →
      parentCheckAux made ops = true →
      pbcAux allDirs made ops = true := by
  intro ops
  induction ops with
  | nil => intro made _ _; rfl
  | cons op rest ih =>
    intro made inv h
    simp only [parentCheckAux, Bool.and_eq_true] at h
    obtain ⟨hpar, hrest⟩ := h
    simp only [pbcAux, Bool.and_eq_true]
    constructor
    · rw [List.all_eq_true]
      intro d hd
      rw [Bool.or_eq_true]
      by_cases hu : pathUnder d op.path = true
      · right
        rw [List.elem_iff]
        exact ancestor_in_made allDirs made inv op.path hpar d hd hu
      · left
        simp [Bool.not_eq_true] at hu
        simp [hu]
    · cases op with
      | makeDir q =>
        refine ih (q :: made) ?_ hrest
        intro d hd x hx hux
        rcases List.mem_cons.mp hx with rfl | hx
        · exact List.mem_cons_of_mem _
            (ancestor_in_made allDirs made inv x hpar d hd hux)
        · exact List.mem_cons_of_mem _ (inv d hd x hx hux)
      | writeFile q data =>
        exact ih made inv hrest

theorem parentBeforeChildB_of_parentCheckB (ops : List Op)
    (h : parentCheckB ops = true) : parentBeforeChildB ops = true := by
  unfold parentBeforeChildB
  exact pbcAux_of_parentCheckAux (dirsOf ops) ops []
    (by intro d _ x hx; cases hx) h

/-- natNodupB decides that a list of identifiers has no duplicates. -/
def natNodupB : List Nat → Bool
  | [] => true
  | x :: xs => !(xs.contains x) && natNodupB xs

theorem nodup_of_natNodupB (l : List Nat) (h : natNodupB l = true) : l.Nodup := by
  induction l with
  | nil => exact List.nodup_nil
  | cons x xs ih =>
    simp only [natNodupB, Bool.and_eq_true, Bool.not_eq_true'] at h
    refine List.nodup_cons.mpr ⟨?_, ih h.2⟩
    intro hx
    have helem := List.elem_iff.mpr hx
    have hcontains : xs.contains x = true := helem
    rw [h.1] at hcontains
    cases hcontains

/-- manifestSummary lists, for each manifest the plan writes (in order),
its header identifier, the identifiers referenced by its dependency list,
and the identifiers it owns (header and module identifiers). -/
def manifestSummary (ops : List Op) : List (Option Nat × List Nat × List Nat) :=
  (manifestJsons ops).map (fun j =>
    (manifestHeaderUuidNat j, manifestDepUuidNats j, manifestOwnUuidNats j))

/-- manifestAllUuidNats collects every identifier carried by a manifest
header or module entry anywhere in the plan. -/
def manifestAllUuidNats (ops : List Op) : List Nat :=
  ((manifestJsons ops).map manifestOwnUuidNats).flatten

/-- configAt navigates into the `config.json` document of a plan. -/
def configAt (ops : List Op) (ks : List String) : Option Js :=
  (jsonAtTail ops ["config.json"]).bind (fun j => j.atPath ks)

/-- profileFilterEntries decodes a profile's `filters` array into its
entries, each a single-property object (`filter` or `profile` and the
referenced name). -/
def profileFilterEntries (j : Js) : Option (List (String × String)) :=
  match j with
  | .arr l => l.mapM (fun e =>
      match e with
      | .obj [(k, .str v)] => some (k, v)
      | _ => Option.none)
  | _ => Option.none

/-- demoTs is a concrete answers value: TypeScript scripting with local
filters, ESLint and Prettier, but no resource pack. -/
def demoTs : PromptResponses :=
  ⟨"demo", false, "1.20.0", ScriptingLanguage.ts, some true, some true, true⟩

/-- demoTsRp is `demoTs` with the resource pack included. -/
def demoTsRp : PromptResponses :=
  ⟨"demo", true, "1.20.0", ScriptingLanguage.ts, some true, some true, true⟩

/-- demoNone is a concrete answers value with scripting disabled. -/
def demoNone : PromptResponses :=
  ⟨"demo", true, "1.20.0", ScriptingLanguage.none, Option.none, Option.none, false⟩

/-- C1: evaluation at the failing input `demoTs` (TypeScript scripting,
local filters requested, no resource pack): `config.json` still defines
the `example_filter` filter, yet no operation of the plan touches a
`filters` directory; with the resource pack included (`demoTsRp`) the
filters operations do appear.  This exhibits the local-filters block being
nested inside the resource-pack branch. -/
theorem C1_code_bug_eval :
    (configAt (plan demoTs) ["regolith", "filterDefinitions"]).bind Js.objKeys
        = some ["build_scripts", "prod_finish_up_build_scripts", "example_filter"]
      ∧ (plan demoTs).all (fun op => !(op.path.contains "filters")) = true
      ∧ (plan demoTsRp).any (fun op => op.path.contains "filters") = true := by
  decide

/-- C2: the sanitizer leaves `"a.b"` unchanged (the `'.'` remains), and
collapses the full ten-character sequence `/\:*?"<>|.` to a single `'-'`:
the replacement applies to the exact character sequence of the regular
expression, not to each character of a class. -/
theorem C2_code_bug_eval :
    sanitizeName "a.b" = "a.b"
      ∧ (sanitizeName "a.b").data.contains '.' = true
      ∧ sanitizeName (String.mk illegalSeq) = "-"
      ∧ sanitizeName ("x" ++ String.mk illegalSeq ++ "y") = "x-y" := by
  decide

/-- C3: the reserved-name test rejects `"CONSOLE"` (the `^` anchor binds
only the `CON` alternative, so any name starting with `CON` matches),
rejects `"XPRNX"` (the middle alternatives are unanchored), and accepts
`"con"` (the test is case-sensitive); `initProject` behaves
accordingly. -/
theorem C3_code_bug_eval :
    reservedNameTest "CONSOLE" = true
      ∧ reservedNameTest "XPRNX" = true
      ∧ reservedNameTest "con" = false
      ∧ exceptIsOk (initProject ⟨"CONSOLE", false, "1.20.0", ScriptingLanguage.ts,
          some true, some true, true⟩ { dry := false }) = false
      ∧ exceptIsOk (initProject ⟨"con", false, "1.20.0", ScriptingLanguage.ts,
          some true, some true, true⟩ { dry := false }) = true := by
  decide

/-- C4 counterexample: the name `"CON"` passes both prompt validators,
yet `initProject` throws on it, so planning is not total on
validator-accepted answers. -/
theorem C4_counterexample :
    validateProjectName "CON" = Option.none
      ∧ validateTargetVersion "1.20.0" = Option.none
      ∧ exceptIsOk (initProject ⟨"CON", false, "1.20.0", ScriptingLanguage.ts,
          some true, some true, true⟩ { dry := false }) = false
      ∧ exceptErrorMsg (initProject ⟨"CON", false, "1.20.0", ScriptingLanguage.ts,
          some true, some true, true⟩ { dry := false })
        = some "\"CON\" is an illegal file name. Try giving your add-on another name" := by
  decide

/-- C4 amended: on answers that pass both prompt validators and whose
sanitized name also passes the reserved-name test, `initProject` never
throws and produces the complete operation list. -/
theorem C4_amended (p : PromptResponses) (opts : Options)
    (_h1 : validateProjectName p.projectName = Option.none)
    (_h2 : validateTargetVersion p.targetVersion = Option.none)
    (h3 : reservedNameTest (sanitizeName p.projectName) = false) :
    initProject p opts = Except.ok (initProjectBody p opts (sanitizeName p.projectName))
      ∧ (initProjectBody p opts (sanitizeName p.projectName)).log
          = initProjectOps p (sanitizeName p.projectName) := by
  refine ⟨?_, initProjectBody_log p opts _⟩
  simp [initProject, h3]

/-- C4 witness: the amended statement applied at a concrete input. -/
theorem C4_witness :
    initProject demoTs { dry := false }
        = Except.ok (initProjectBody demoTs { dry := false } (sanitizeName "demo"))
      ∧ (initProjectBody demoTs { dry := false } (sanitizeName "demo")).log
          = initProjectOps demoTs (sanitizeName "demo") :=
  C4_amended demoTs { dry := false } (by decide) (by decide) (by decide)

/-- C6 counterexample: the version string `"1.-1.0"` is accepted by the
target-version validator even though its middle component is the negative
integer `-1`. -/
theorem C6_counterexample :
    validateTargetVersion "1.-1.0" = Option.none
      ∧ jsNumberOfString "-1" = JsNumber.val (-1) 0
      ∧ validateTargetVersion "1.2e1.0" = Option.none
      ∧ validateTargetVersion "1.Infinity.0" = Option.none := by
  decide

/-- C6 amended: the target-version validator accepts exactly the strings
that split on `'.'` into 3 or 4 components, each non-empty and coercible
to a JavaScript number (not `NaN`) — which includes negative, exponent,
hexadecimal, whitespace-padded and `Infinity` components. -/
theorem C6_amended (s : String) :
    validateTargetVersion s = Option.none ↔
      (((splitOnChar '.' s).length = 3 ∨ (splitOnChar '.' s).length = 4)
        ∧ ∀ v ∈ splitOnChar '.' s, v ≠ "" ∧ jsNumberOfString v ≠ JsNumber.nan) := by
  simp only [validateTargetVersion]
  split
  · next hcond =>
    constructor
    · intro habs
      exact Option.noConfusion habs
    · intro hRHS
      exfalso
      rcases hcond with hlen | hany
      · rcases hRHS.1 with h3 | h4
        · exact hlen.1 h3
        · exact hlen.2 h4
      · rw [List.any_eq_true] at hany
        obtain ⟨v, hv, hbad⟩ := hany
        have hgood := hRHS.2 v hv
        rw [Bool.or_eq_true] at hbad
        rcases hbad with hemp | hnan
        · exact hgood.1 (String.ext (List.isEmpty_iff.mp hemp))
        · exact hgood.2 (by rwa [beq_iff_eq] at hnan)
  · next hcond =>
    rw [not_or] at hcond
    obtain ⟨hlen, hany⟩ := hcond
    constructor
    · intro _
      constructor
      · by_contra hno
        rw [not_or] at hno
        exact hlen ⟨hno.1, hno.2⟩
      · intro v hv
        have hnotbad : ¬((v.data.isEmpty || (jsNumberOfString v == JsNumber.nan)) = true) := by
          intro hb
          exact hany (List.any_eq_true.mpr ⟨v, hv, hb⟩)
        rw [Bool.or_eq_true, not_or] at hnotbad
        constructor
        · intro hveq
          apply hnotbad.1
          rw [hveq]
          rfl
        · intro hnan
          apply hnotbad.2
          rw [hnan]
          rfl
    · intro _
      rfl

/-- C5 counterexample: with scripting disabled (`demoNone`) the `prod`
profile's `filters` list is not empty — it contains the
`{"profile": "default"}` entry. -/
theorem C5_counterexample :
    (configAt (plan demoNone) ["regolith", "profiles", "prod", "filters"]).bind
        profileFilterEntries
      = some [("profile", "default")]
      ∧ some [("profile", "default")] ≠ (some [] : Option (List (String × String))) := by
  decide

set_option maxHeartbeats 16000000 in
/-- C5 amended: with scripting disabled, `config.json` has an empty
filter-definition map, the `default` profile's filters list is empty, the
`prod` profile's filters list contains exactly the `default` profile
reference (and no filter entry), the plan contains no behavior-pack
scripts directory, and neither `esbuild` nor `terser` is a
dev-dependency. -/
theorem C5_amended (p : PromptResponses)
    (h : p.scriptingLanguage = ScriptingLanguage.none) :
    (configAt (plan p) ["regolith", "filterDefinitions"]).bind Js.objKeys = some []
      ∧ (configAt (plan p) ["regolith", "profiles", "default", "filters"]).bind
          profileFilterEntries = some []
      ∧ (configAt (plan p) ["regolith", "profiles", "prod", "filters"]).bind
          profileFilterEntries = some [("profile", "default")]
      ∧ (plan p).all (fun op => !(["packs", "BP", "scripts"].isPrefixOf op.path.tail)) = true
      ∧ (devDependencyNamesOf (plan p)).contains "esbuild" = false
      ∧ (devDependencyNamesOf (plan p)).contains "terser" = false := by
  obtain ⟨pn, rp, tv, sl, lf, el, pr⟩ := p
  change sl = ScriptingLanguage.none at h
  subst h
  rw [plan_eq_ops]
  refine ⟨rfl, rfl, rfl, ?_⟩
  cases rp <;> rcases lf with _ | (_ | _) <;> rcases el with _ | (_ | _) <;> cases pr <;>
    exact ⟨rfl, rfl, rfl⟩

/-- C5 witness: the amended statement applied at the concrete input
`demoNone`. -/
theorem C5_witness :
    (configAt (plan demoNone) ["regolith", "filterDefinitions"]).bind Js.objKeys = some []
      ∧ (configAt (plan demoNone) ["regolith", "profiles", "default", "filters"]).bind
          profileFilterEntries = some []
      ∧ (configAt (plan demoNone) ["regolith", "profiles", "prod", "filters"]).bind
          profileFilterEntries = some [("profile", "default")]
      ∧ (plan demoNone).all
          (fun op => !(["packs", "BP", "scripts"].isPrefixOf op.path.tail)) = true
      ∧ (devDependencyNamesOf (plan demoNone)).contains "esbuild" = false
      ∧ (devDependencyNamesOf (plan demoNone)).contains "terser" = false :=
  C5_amended demoNone rfl

theorem manifestAllUuidNats_eq_summary (ops : List Op) :
    manifestAllUuidNats ops = ((manifestSummary ops).map (fun x => x.2.2)).flatten := by
  simp [manifestAllUuidNats, manifestSummary, List.map_map]
  rfl

set_option maxHeartbeats 64000000 in
/-- C7: for every answers value, the plan writes the behavior-pack
manifest with header identifier 0 (the first generation site), whose
dependency list is exactly `[1]` — the resource-pack header identifier —
when the resource pack is included and empty otherwise; when the resource
pack is included the plan also writes the resource-pack manifest with
header identifier 1 and dependency list exactly `[0]` — the behavior-pack
header identifier; and each module entry (`data`, `script`, `resources`)
carries its own fresh identifier (2, 3 and 4-or-3 respectively), all
header and module identifiers in the plan being pairwise distinct. -/
theorem C7_theorem (p : PromptResponses) :
    manifestSummary (plan p)
      = [(some 0, (if p.includeRp then [1] else []),
          [0, 2] ++ (if p.scriptingLanguage != ScriptingLanguage.none then [3] else []))]
        ++ (if p.includeRp then
             [(some 1, [0],
               [1, if p.scriptingLanguage != ScriptingLanguage.none then 4 else 3])]
            else [])
      ∧ (manifestAllUuidNats (plan p)).Nodup := by
  obtain ⟨pn, rp, tv, sl, lf, el, pr⟩ := p
  rw [plan_eq_ops]
  have hsum : manifestSummary
      (initProjectOps ⟨pn, rp, tv, sl, lf, el, pr⟩
        (sanitizeName (PromptResponses.projectName ⟨pn, rp, tv, sl, lf, el, pr⟩)))
      = [(some 0, (if rp then [1] else []),
          [0, 2] ++ (if sl != ScriptingLanguage.none then [3] else []))]
        ++ (if rp then
             [(some 1, [0], [1, if sl != ScriptingLanguage.none then 4 else 3])]
            else []) := by
    cases rp <;> cases sl <;> rcases lf with _ | (_ | _) <;> rcases el with _ | (_ | _) <;>
      cases pr <;> rfl
  refine ⟨hsum, ?_⟩
  rw [manifestAllUuidNats_eq_summary, hsum]
  cases rp <;> cases sl <;> decide

set_option maxHeartbeats 16000000 in
/-- C8: whenever typed scripting or lint is enabled, the package
manifest's `check` script is the `" && "`-join of the lint invocation (if
lint is enabled), then the root type-check invocation (if typed), then
the filters type-check invocation (if typed with local filters) — the
order and gating of `checkCommands`. -/
theorem C8_theorem (p : PromptResponses)
    (h : (p.scriptingLanguage == ScriptingLanguage.ts || truthy p.includeEslint) = true) :
    scriptsCheckOf (plan p)
      = some (String.intercalate " && "
          ((if truthy p.includeEslint then ["eslint ."] else [])
            ++ (if p.scriptingLanguage == ScriptingLanguage.ts then
                 ["tsc"]
                   ++ (if truthy p.includeLocalFilters then ["tsc -p filters"] else [])
                else []))) := by
  obtain ⟨pn, rp, tv, sl, lf, el, pr⟩ := p
  rw [plan_eq_ops]
  revert h
  cases sl <;> rcases lf with _ | (_ | _) <;> rcases el with _ | (_ | _) <;> cases pr <;>
    intro h <;>
    first
      | rfl
      | exact Bool.noConfusion (show false = true from h)

/-- C8 witness: with TypeScript, local filters and ESLint all enabled the
`check` script is exactly `eslint . && tsc && tsc -p filters`. -/
theorem C8_witness :
    scriptsCheckOf (plan demoTs) = some "eslint . && tsc && tsc -p filters" :=
  (C8_theorem demoTs (by decide)).trans (by decide)

set_option maxHeartbeats 64000000 in
/-- C9: every plan is parent-before-child ordered — whenever an
operation's path lies strictly under a directory the plan creates, that
directory's creation occurs earlier in the operation list. -/
theorem C9_theorem (p : PromptResponses) : parentBeforeChildB (plan p) = true := by
  obtain ⟨pn, rp, tv, sl, lf, el, pr⟩ := p
  rw [plan_eq_ops]
  rw [← parentBeforeChildB_strip (sanitizeName pn) _ (initProjectOps_rehead _ _)]
  apply parentBeforeChildB_of_parentCheckB
  cases rp <;> cases sl <;> rcases lf with _ | (_ | _) <;> rcases el with _ | (_ | _) <;>
    cases pr <;> rfl

/-- C10: for every answers value, a dry run performs no filesystem
operation at all, logs exactly the same operation sequence as the non-dry
run, and the non-dry run performs exactly the operations it logs. -/
theorem C10_theorem (p : PromptResponses) :
    (initProjectBody p { dry := true } (sanitizeName p.projectName)).fs = []
      ∧ (initProjectBody p { dry := true } (sanitizeName p.projectName)).log
          = (initProjectBody p { dry := false } (sanitizeName p.projectName)).log
      ∧ (initProjectBody p { dry := false } (sanitizeName p.projectName)).fs
          = (initProjectBody p { dry := false } (sanitizeName p.projectName)).log := by
  refine ⟨?_, ?_, ?_⟩ <;>
    simp [initProjectBody_fs, initProjectBody_log]
